import Mathlib

/-!
Verification of the price-reconciliation engine of SuperVergelijker.

The development shallowly embeds the two Python source files that contain the
engine — `src/compare.py` (catalog/market comparison) and `src/get_prices.py`
(market-feed ingestion, function `save_results`) — as executable Lean
definitions and proves the spec's claims about them.

Modelling conventions:
* pandas `NaN` for a numeric column is modelled as `Option ℚ` with `none`;
  float arithmetic is idealised as exact rational arithmetic.
* A dataframe is a `List` of structure values, one structure per source table.
* `pd.to_numeric(errors ≔ coerce)` / Python `float` is modelled by `pyFloat`,
  which parses an optional sign followed by a plain decimal literal
  (exponent notation, `inf` and `nan` literals are not modelled; the feeds
  only carry plain decimals).
* `sort_values` followed by `drop_duplicates(keep ≔ first)` is modelled with a
  stable insertion sort (`sortB`) followed by first-occurrence deduplication
  (`dropDupBy`): rows with equal sort keys keep their input order, which is
  the deterministic reading the code relies on.
-/

namespace SV

/-! ## Basic Python string/number primitives -/

/-- Python `str.strip()`: remove leading and trailing whitespace. -/
def pyStrip (s : String) : String :=
  ⟨((s.data.dropWhile Char.isWhitespace).reverse.dropWhile Char.isWhitespace).reverse⟩

/-- Numeric value of a digit string, most significant digit first. -/
def digitsVal (l : List Char) : Nat :=
  l.foldl (fun acc c => acc * 10 + (c.toNat - 48)) 0

/-- Parse an unsigned decimal literal made of digits and at most one dot,
Python `float` style: `"19.99"`, `"1."`, `".5"`, `"123"` succeed; `""`,
`"."`, `"1.2.3"`, and anything containing another character fail. -/
def parseDecimal (l : List Char) : Option ℚ :=
  if (l.takeWhile (fun c => c ≠ '.')).all Char.isDigit = false then none
  else
    match l.dropWhile (fun c => c ≠ '.') with
    | [] =>
      if (l.takeWhile (fun c => c ≠ '.')).isEmpty then none
      else some (digitsVal (l.takeWhile (fun c => c ≠ '.')) : ℚ)
    | _ :: frac =>
      if frac.all Char.isDigit = false then none
      else if (l.takeWhile (fun c => c ≠ '.')).isEmpty && frac.isEmpty then none
      else some ((digitsVal (l.takeWhile (fun c => c ≠ '.')) : ℚ)
        + (digitsVal frac : ℚ) / (10 : ℚ) ^ frac.length)

/-- Parse an optionally signed decimal literal. -/
def parseSigned (l : List Char) : Option ℚ :=
  match l with
  | [] => none
  | c :: rest =>
    if c = '-' then (parseDecimal rest).map (fun q => -q)
    else if c = '+' then parseDecimal rest
    else parseDecimal (c :: rest)

/-- Python `float(s)` / `pd.to_numeric(s, errors ≔ coerce)`: strip whitespace,
then parse a signed plain decimal literal; `none` models `NaN`. -/
def pyFloat (s : String) : Option ℚ :=
  parseSigned (pyStrip s).data

/-- Truncation toward zero, Python `int()` / numpy `astype(int)` on a float. -/
def pyTrunc (q : ℚ) : ℤ :=
  Int.tdiv q.num (q.den : ℤ)

/-- Floor of a rational, computed with Euclidean division (denominator > 0). -/
def ratFloor (q : ℚ) : ℤ :=
  Int.ediv q.num (q.den : ℤ)

/-- Round to the nearest integer, ties to even — the rounding used by
numpy/pandas `round`. -/
def roundHalfEven (q : ℚ) : ℤ :=
  let f := ratFloor q
  let frac := q - (f : ℚ)
  if frac < 1 / 2 then f
  else if 1 / 2 < frac then f + 1
  else if f % 2 = 0 then f else f + 1

/-- Pandas `Series.round(2)` on an exact value. -/
def round2 (q : ℚ) : ℚ :=
  ((roundHalfEven (q * 100) : ℤ) : ℚ) / 100

/-! ## Generic list machinery: stable sort and keep-first deduplication

`sortB le` is a stable insertion sort (elements compare with the Boolean
preorder `le`; an element is inserted before the first existing element it is
`le`-below, so equal-key elements keep their input order).  `dropDupBy key`
keeps the first occurrence of every key.  Together they model
`DataFrame.sort_values(by=key, ascending=True)` followed by
`DataFrame.drop_duplicates(subset=[id], keep='first')`. -/

/-- Insert `x` into `s`, before the first element `y` with `le x y`. -/
def orderedIns {α : Type} (le : α → α → Bool) (x : α) : List α → List α
  | [] => [x]
  | y :: ys => if le x y then x :: y :: ys else y :: orderedIns le x ys

/-- Stable insertion sort by the Boolean preorder `le`. -/
def sortB {α : Type} (le : α → α → Bool) : List α → List α
  | [] => []
  | x :: xs => orderedIns le x (sortB le xs)

/-- Keep the first row of every key; `seen` holds keys already emitted.
Models `drop_duplicates(subset=[key], keep='first')`. -/
def dropDupBy {α : Type} (key : α → String) : List String → List α → List α
  | _, [] => []
  | seen, x :: xs =>
      if seen.contains (key x) then dropDupBy key seen xs
      else x :: dropDupBy key (key x :: seen) xs

/-- Combine one row with the best row of the rest: prefer `x` when it
satisfies `p` and is `le`-below the best so far (so on ties the earlier
row wins). -/
def pickMin {α : Type} (le : α → α → Bool) (p : α → Bool) (x : α) : Option α → Option α
  | none => if p x then some x else none
  | some z => if p x && le x z then some x else some z

/-- Specification-level selector: the first row of the list satisfying `p`
whose `le`-key is minimal among all rows satisfying `p` (ties broken by
input order, first occurrence wins); `none` when no row satisfies `p`. -/
def minFirst {α : Type} (le : α → α → Bool) (p : α → Bool) : List α → Option α
  | [] => none
  | x :: xs => pickMin le p x (minFirst le p xs)

/-! ## compare.py -/

/-- One raw row of the market price CSV read by `_load_prices`
(`pd.read_csv(path, sep = ";", dtype = str)`): every field is a string.
Only the columns the engine uses downstream are modelled. -/
structure PriceCsvRow where
  ean : String
  laagsteprijs : String
  laagsteprijstweedehands : String
  link : String
deriving DecidableEq, Repr

/-- One normalized market row of `_load_prices`'s output (a `MarketOffer`). -/
structure MarketRow where
  ean : String
  laagsteprijs : Option ℚ
  laagsteprijstweedehands : Option ℚ
  link : String
deriving DecidableEq, Repr

/-- compare.py `_clean_ean`, applied to one cell:
`astype(str).str.strip().str.replace(r'\D', '', regex=True).replace('', pd.NA)` —
strip, drop every non-digit character, and turn the empty result into `NA`.
Leading zeros are NOT stripped here. -/
def clean_ean (s : String) : Option String :=
  if ((pyStrip s).data.filter Char.isDigit).isEmpty then none
  else some ⟨(pyStrip s).data.filter Char.isDigit⟩

/-- compare.py line 38's character rewrite: `str.replace(',', '.')`. -/
def commaToDot (c : Char) : Char :=
  if c = ',' then '.' else c

/-- compare.py `_clean_price`, applied to one cell: replace `,` by `.`,
drop every character that is neither a digit nor a dot, re-assemble the
string around its first dot (`x.split('.', 1)` put back together — a no-op,
faithfully modelled by `rejoinFirstDot`), then `pd.to_numeric(errors ≔
coerce)`. -/
def rejoinFirstDot (l : List Char) : List Char :=
  if l.contains '.'
  then l.takeWhile (fun c => c ≠ '.') ++ '.' :: (l.dropWhile (fun c => c ≠ '.')).tail
  else l

/-- compare.py `_clean_price` on one cell (the `astype(str).fillna('')` step
cannot fire after `astype(str)` and is dropped). -/
def clean_price (s : String) : Option ℚ :=
  pyFloat ⟨rejoinFirstDot ((s.data.map commaToDot).filter (fun c => c.isDigit || c = '.'))⟩

/-- compare.py `_load_prices`, per-row part: clean the `ean` (rows whose ean
normalizes to `NA` are dropped by `dropna(subset=['ean'])`), clean both price
columns and divide them by `100.0` — the division is unconditional. -/
def loadRow (r : PriceCsvRow) : Option MarketRow :=
  match clean_ean r.ean with
  | none => none
  | some e =>
      some { ean := e
             laagsteprijs := (clean_price r.laagsteprijs).map (fun q => q / 100)
             laagsteprijstweedehands :=
               (clean_price r.laagsteprijstweedehands).map (fun q => q / 100)
             link := r.link }

/-- Row-wise `min(axis=1)` over the two price columns: pandas skips `NaN`
and yields `NaN` only when both are `NaN`. -/
def skipnaMin : Option ℚ → Option ℚ → Option ℚ
  | some a, some b => some (min a b)
  | some a, none => some a
  | none, some b => some b
  | none, none => none

/-- Ordering used by `sort_values('temp_min_price', ascending=True)` with the
default `na_position='last'`: `NaN` (`none`) sorts after every value. -/
def optRatLe : Option ℚ → Option ℚ → Bool
  | _, none => true
  | none, some _ => false
  | some a, some b => decide (a ≤ b)

/-- Sort key comparison of `_load_prices`'s deduplication:
`temp_min_price = min(laagsteprijs, laagsteprijstweedehands)`. -/
def marketKeyLe (a b : MarketRow) : Bool :=
  optRatLe (skipnaMin a.laagsteprijs a.laagsteprijstweedehands)
    (skipnaMin b.laagsteprijs b.laagsteprijstweedehands)

/-- compare.py `_load_prices`: per-row normalization, then
`sort_values('temp_min_price')` + `drop_duplicates(subset=['ean'],
keep='first')`. -/
def load_prices (rows : List PriceCsvRow) : List MarketRow :=
  dropDupBy (fun r => r.ean) [] (sortB marketKeyLe (rows.filterMap loadRow))

/-- One raw row of the Magento XLSX export (`dtype = str`), after the column
renames of `_parse_magento_export`. -/
structure MagentoRow where
  sku : String
  title : String
  qty : String
  price : String
deriving DecidableEq, Repr

/-- One parsed catalog row (a `CatalogItem`). -/
structure CatalogItem where
  sku : String
  ean : String
  ctype : Char
  title : String
  qty : String
  price : Option ℚ
deriving DecidableEq, Repr

/-- Python `s[:-1]`: the string without its last character. -/
def dropLast1 (s : String) : String :=
  ⟨s.data.dropLast⟩

/-- Pandas `.str[-1].str.upper()` on a cell: last character, uppercased.
On the empty string pandas yields `NaN`; that only happens for rows whose
`ean` also normalizes to `NA`, which are dropped, so the default is inert. -/
def lastUpper (s : String) : Char :=
  ((s.data.getLast?).map Char.toUpper).getD 'A'

/-- compare.py `_parse_magento_export`, per-row part: strip the sku, derive
`ean = sku[:-1]` (cleaned by `_clean_ean`; `NA` rows dropped) and
`type = sku[-1].upper()`, and clean the price column. -/
def parse_magento_row (r : MagentoRow) : Option CatalogItem :=
  let sku := pyStrip r.sku
  match clean_ean (dropLast1 sku) with
  | none => none
  | some e =>
      some { sku := sku, ean := e, ctype := lastUpper sku
             title := r.title, qty := r.qty, price := clean_price r.price }

/-- compare.py `_parse_magento_export` over the whole export. -/
def parse_magento (rows : List MagentoRow) : List CatalogItem :=
  rows.filterMap parse_magento_row

/-- One merged comparison row of `_compare_prices` (a `ReconciledRow`). -/
structure ReconRow where
  catalog : CatalogItem
  market : MarketRow
  cheapest : Option ℚ
  verschil : Option ℚ
deriving DecidableEq, Repr

/-- The row-wise lambda of `_compare_prices`: `laagsteprijs` for type `N`,
`laagsteprijstweedehands` for type `G`, `None` otherwise (the subsequent
`pd.to_numeric` turns `None` into `NaN`, i.e. stays `none`). -/
def selectMarketPrice (t : Char) (m : MarketRow) : Option ℚ :=
  if t = 'N' then m.laagsteprijs
  else if t = 'G' then m.laagsteprijstweedehands
  else none

/-- compare.py line 91: `(Gsprijs - Cheapest).round(2)` with `NaN`
propagation — the difference exists exactly when both operands do. -/
def priceDifference : Option ℚ → Option ℚ → Option ℚ
  | some a, some b => some (round2 (a - b))
  | _, _ => none

/-- Build the merged row for one catalog item and its matched market row. -/
def mkRecon (c : CatalogItem) (m : MarketRow) : ReconRow :=
  let cp := selectMarketPrice c.ctype m
  { catalog := c, market := m, cheapest := cp
    verschil := priceDifference c.price cp }

/-- compare.py `_compare_prices`: `magento.merge(prijzen, on="ean",
how="inner")` plus the two derived columns.  `prijzen` is deduplicated (one
row per ean), so the inner merge pairs each catalog row with the unique
matching market row, if any, and drops it otherwise; left order is kept. -/
def compare_prices (mag : List CatalogItem) (prz : List MarketRow) : List ReconRow :=
  mag.filterMap (fun c => (prz.find? (fun m => m.ean == c.ean)).map (mkRecon c))

/-! ## compare.py `_export_to_csv` -/

/-- One typed cell handed to the CSV writer (`to_csv` itself — rendering of
numbers with the `decimal=','` convention — is excluded plumbing; `NaN`
numeric cells are written empty). -/
inductive Cell where
  | str : String → Cell
  | num : Option ℚ → Cell
  | int : ℤ → Cell
deriving DecidableEq, Repr

/-- compare.py `is_lowest`: `'Y' if pd.isna(cheapest) or gsprijs <= cheapest
else 'N'`; a `NaN` `gsprijs` compares false against a present cheapest. -/
def is_lowest (gsprijs cheapest : Option ℚ) : String :=
  match cheapest, gsprijs with
  | none, _ => "Y"
  | some m, some c => if c ≤ m then "Y" else "N"
  | some _, none => "N"

/-- compare.py line 113: `to_numeric(qty, errors ≔ coerce).fillna(0).astype(int)`. -/
def qtyInt (s : String) : ℤ :=
  pyTrunc ((pyFloat s).getD 0)

/-- The export column order of `_export_to_csv` (`export_columns`). -/
def export_columns : List String :=
  ["BGLink", "BGEAN", "Titel", "GSVoorraad", "GSPrijs", "Goedkoopste Prijs",
   "Verschil", "Laagste?", "Gecheckt door", "Is OK?", "Datum", "Opmerking", "GST EAN"]

/-- One exported row of `_export_to_csv`, cells in `export_columns` order;
the four annotation columns are set to the empty string for every row. -/
def exportRow (r : ReconRow) : List Cell :=
  [Cell.str r.market.link,
   Cell.str r.catalog.ean,
   Cell.str r.catalog.title,
   Cell.int (qtyInt r.catalog.qty),
   Cell.num r.catalog.price,
   Cell.num r.cheapest,
   Cell.num r.verschil,
   Cell.str (is_lowest r.catalog.price r.cheapest),
   Cell.str "", Cell.str "", Cell.str "", Cell.str "",
   Cell.str r.catalog.sku]

/-- The full audit export: header plus one cell row per comparison row. -/
def exportTable (rows : List ReconRow) : List (List Cell) :=
  rows.map exportRow

/-! ## get_prices.py `save_results` -/

/-- One raw feed row collected by `fetch_all_data`: every field is the
stripped string cut out of the upstream response. -/
structure FeedRow where
  titel : String
  ean : String
  laagsteprijs : String
  verzendkostennieuw : String
  laagsteprijstweedehands : String
  verzendkostentweedehands : String
  link : String
deriving DecidableEq, Repr

/-- One row of `save_results`'s dataframe after price cleaning: the four
price columns are plain numbers because `fillna(0.0)` has removed `NaN`. -/
structure CleanFeedRow where
  titel : String
  ean : String
  laagsteprijs : ℚ
  verzendkostennieuw : ℚ
  laagsteprijstweedehands : ℚ
  verzendkostentweedehands : ℚ
  link : String
deriving DecidableEq, Repr

/-- get_prices.py lines 204-205, one cell of a price column:
`str.replace('.', '')` (drop every dot), `str.replace(',', '.')`, then
`pd.to_numeric(errors ≔ coerce)`. -/
def feed_clean_price (s : String) : Option ℚ :=
  pyFloat ⟨(s.data.filter (fun c => c ≠ '.')).map commaToDot⟩

/-- The same cell after get_prices.py line 208, `fillna(0.0)`: an
unparseable price has become the number `0`. -/
def feedPrice (s : String) : ℚ :=
  (feed_clean_price s).getD 0

/-- get_prices.py line 211, one `ean` cell:
`str.replace(r'\D', '', regex=True).str.lstrip('0')` — keep the digits and
strip leading zeros (the following `dropna` cannot fire after `astype(str)`). -/
def feed_clean_ean (s : String) : String :=
  ⟨(s.data.filter Char.isDigit).dropWhile (fun c => c = '0')⟩

/-- Per-row cleaning of `save_results` (lines 200-213): price columns
cleaned and zero-filled, `ean` cleaned, rows with an empty cleaned `ean`
dropped (`df = df[df['ean'] != '']`).  The source cleans prices on the whole
frame before filtering eans; both steps are per-row, so the order is
immaterial. -/
def feedCleanRow (r : FeedRow) : Option CleanFeedRow :=
  if feed_clean_ean r.ean = "" then none
  else
    some { titel := r.titel, ean := feed_clean_ean r.ean
           laagsteprijs := feedPrice r.laagsteprijs
           verzendkostennieuw := feedPrice r.verzendkostennieuw
           laagsteprijstweedehands := feedPrice r.laagsteprijstweedehands
           verzendkostentweedehands := feedPrice r.verzendkostentweedehands
           link := r.link }

/-- Sort key comparison of `save_results`'s deduplication (lines 217-219):
`temp_min_price = min(laagsteprijs, laagsteprijstweedehands)` — both columns
are zero-filled numbers here, so the key is a plain rational. -/
def feedKeyLe (a b : CleanFeedRow) : Bool :=
  decide (min a.laagsteprijs a.laagsteprijstweedehands ≤
    min b.laagsteprijs b.laagsteprijstweedehands)

/-- get_prices.py lines 225-226: subtract the shipping cost from each price
column and round to 2 decimals.  Nothing clamps the result at zero. -/
def shippingAdjust (r : CleanFeedRow) : CleanFeedRow :=
  { r with
    laagsteprijs := round2 (r.laagsteprijs - r.verzendkostennieuw)
    laagsteprijstweedehands :=
      round2 (r.laagsteprijstweedehands - r.verzendkostentweedehands) }

/-- get_prices.py `save_results`, the whole data transformation: clean,
deduplicate (`sort_values('temp_min_price')` +
`drop_duplicates(subset=['ean'], keep='first')`), adjust for shipping.
The final column selection and the `~(titel.isna() & ean.isna())` filter
(inert after `astype(str)`) only shape the CSV and are not re-modelled. -/
def save_results (rows : List FeedRow) : List CleanFeedRow :=
  (dropDupBy (fun r => r.ean) [] (sortB feedKeyLe (rows.filterMap feedCleanRow))).map
    shippingAdjust

/-! ## Lemmas about the sort/deduplicate machinery -/

theorem mem_orderedIns {α : Type} (le : α → α → Bool) (x a : α) :
    ∀ s : List α, (a ∈ orderedIns le x s ↔ a = x ∨ a ∈ s)
  | [] => by simp [orderedIns]
  | y :: ys => by
    simp only [orderedIns]
    by_cases h : le x y = true
    · simp [h]
    · rw [if_neg h]
      simp only [List.mem_cons, mem_orderedIns le x a ys]
      tauto

theorem pairwise_orderedIns {α : Type} (le : α → α → Bool)
    (htr : ∀ a b c, le a b = true → le b c = true → le a c = true)
    (hto : ∀ a b, le a b = true ∨ le b a = true) (x : α) :
    ∀ s : List α, s.Pairwise (fun a b => le a b = true) →
      (orderedIns le x s).Pairwise (fun a b => le a b = true)
  | [], _ => by simp [orderedIns]
  | y :: ys, hp => by
    rcases List.pairwise_cons.mp hp with ⟨hy, hys⟩
    simp only [orderedIns]
    by_cases h : le x y = true
    · rw [if_pos h]
      refine List.pairwise_cons.mpr ⟨?_, hp⟩
      intro b hb
      rcases List.mem_cons.mp hb with rfl | hb
      · exact h
      · exact htr _ _ _ h (hy b hb)
    · rw [if_neg h]
      refine List.pairwise_cons.mpr ⟨?_, pairwise_orderedIns le htr hto x ys hys⟩
      intro b hb
      rcases (mem_orderedIns le x b ys).mp hb with hbx | hb
      · rw [hbx]
        rcases hto x y with h1 | h1
        · exact absurd h1 h
        · exact h1
      · exact hy b hb

theorem pairwise_sortB {α : Type} (le : α → α → Bool)
    (htr : ∀ a b c, le a b = true → le b c = true → le a c = true)
    (hto : ∀ a b, le a b = true ∨ le b a = true) :
    ∀ l : List α, (sortB le l).Pairwise (fun a b => le a b = true)
  | [] => by simp [sortB]
  | x :: xs => pairwise_orderedIns le htr hto x _ (pairwise_sortB le htr hto xs)

theorem mem_sortB {α : Type} (le : α → α → Bool) (a : α) :
    ∀ l : List α, (a ∈ sortB le l ↔ a ∈ l)
  | [] => Iff.rfl
  | x :: xs => by
    simp only [sortB, mem_orderedIns le x a (sortB le xs), mem_sortB le a xs,
      List.mem_cons]

theorem find_orderedIns {α : Type} (le : α → α → Bool) (p : α → Bool)
    (htr : ∀ a b c, le a b = true → le b c = true → le a c = true) (x : α) :
    ∀ s : List α, s.Pairwise (fun a b => le a b = true) →
      (orderedIns le x s).find? p = pickMin le p x (s.find? p)
  | [], _ => by
    cases hpx : p x <;> simp [orderedIns, pickMin, List.find?, hpx]
  | y :: ys, hp => by
    rcases List.pairwise_cons.mp hp with ⟨hy, hys⟩
    simp only [orderedIns]
    by_cases hxy : le x y = true
    · rw [if_pos hxy]
      cases hpx : p x with
      | true =>
        rw [List.find?_cons_of_pos _ hpx]
        rcases hfy : List.find? p (y :: ys) with _ | z
        · simp [pickMin, hpx]
        · have hz : z ∈ y :: ys := List.mem_of_find?_eq_some hfy
          have hlez : le x z = true := by
            rcases List.mem_cons.mp hz with hzy | hz'
            · rw [hzy]; exact hxy
            · exact htr _ _ _ hxy (hy z hz')
          simp [pickMin, hpx, hlez]
      | false =>
        rw [List.find?_cons_of_neg _ (by simp [hpx])]
        rcases hfy : List.find? p (y :: ys) with _ | z
        · simp [pickMin, hpx]
        · simp [pickMin, hpx]
    · rw [if_neg hxy]
      have hxy' : le x y = false := Bool.of_not_eq_true hxy
      cases hpy : p y with
      | true =>
        rw [List.find?_cons_of_pos _ hpy, List.find?_cons_of_pos _ hpy]
        simp [pickMin, hxy']
      | false =>
        rw [List.find?_cons_of_neg _ (by simp [hpy]),
          List.find?_cons_of_neg _ (by simp [hpy])]
        exact find_orderedIns le p htr x ys hys

theorem find_sortB {α : Type} (le : α → α → Bool) (p : α → Bool)
    (htr : ∀ a b c, le a b = true → le b c = true → le a c = true)
    (hto : ∀ a b, le a b = true ∨ le b a = true) :
    ∀ l : List α, (sortB le l).find? p = minFirst le p l
  | [] => rfl
  | x :: xs => by
    simp only [sortB, minFirst]
    rw [find_orderedIns le p htr x _ (pairwise_sortB le htr hto xs),
      find_sortB le p htr hto xs]

theorem find_dropDupBy {α : Type} (key : α → String) (e : String) :
    ∀ (seen : List String) (l : List α), seen.contains e = false →
      (dropDupBy key seen l).find? (fun a => key a == e)
        = l.find? (fun a => key a == e)
  | _, [], _ => rfl
  | seen, x :: xs, hseen => by
    simp only [dropDupBy]
    by_cases hx : seen.contains (key x) = true
    · rw [if_pos hx]
      have hne : (key x == e) = false := by
        cases h2 : key x == e
        · rfl
        · have he : key x = e := by simpa using h2
          rw [he] at hx
          rw [hx] at hseen
          exact absurd hseen (by simp)
      rw [find_dropDupBy key e seen xs hseen,
        List.find?_cons_of_neg _ (by simp [hne])]
    · rw [if_neg hx]
      cases hkey : (key x == e) with
      | true =>
        rw [List.find?_cons_of_pos _ (by simpa using hkey),
          List.find?_cons_of_pos _ (by simpa using hkey)]
      | false =>
        have h1 : (e == key x) = false := by
          cases h2 : e == key x
          · rfl
          · have he : e = key x := by simpa using h2
            rw [he, beq_self_eq_true] at hkey
            exact absurd hkey (by simp)
        have hseen2 : (key x :: seen).contains e = false := by
          rw [List.contains_cons, h1, Bool.false_or]
          exact hseen
        rw [List.find?_cons_of_neg _ (by simp [hkey]),
          List.find?_cons_of_neg _ (by simp [hkey])]
        exact find_dropDupBy key e (key x :: seen) xs hseen2

theorem countP_dropDupBy {α : Type} (key : α → String) (e : String) :
    ∀ (seen : List String) (l : List α),
      ((dropDupBy key seen l).countP (fun a => key a == e) ≤ 1) ∧
      (seen.contains e = true → (dropDupBy key seen l).countP (fun a => key a == e) = 0)
  | _, [] => by simp [dropDupBy]
  | seen, x :: xs => by
    simp only [dropDupBy]
    by_cases hx : seen.contains (key x) = true
    · rw [if_pos hx]
      exact countP_dropDupBy key e seen xs
    · rw [if_neg hx]
      cases hkey : (key x == e) with
      | true =>
        have he : key x = e := by simpa using hkey
        have hseen2 : (key x :: seen).contains e = true := by
          rw [List.contains_cons]
          have h3 : (e == key x) = true := by simp [he]
          rw [h3, Bool.true_or]
        constructor
        · simp [List.countP_cons,
            (countP_dropDupBy key e (key x :: seen) xs).2 hseen2, hkey]
        · intro hmem
          rw [he] at hx
          exact absurd hmem hx
      | false =>
        constructor
        · simp only [List.countP_cons, hkey]
          simpa using (countP_dropDupBy key e (key x :: seen) xs).1
        · intro hmem
          have hseen2 : (key x :: seen).contains e = true := by
            rw [List.contains_cons, hmem, Bool.or_true]
          simp [List.countP_cons,
            (countP_dropDupBy key e (key x :: seen) xs).2 hseen2, hkey]

theorem mem_dropDupBy {α : Type} (key : α → String) (a : α) :
    ∀ (seen : List String) (l : List α), a ∈ dropDupBy key seen l → a ∈ l
  | _, [], h => absurd h (List.not_mem_nil a)
  | seen, x :: xs, h => by
    simp only [dropDupBy] at h
    by_cases hx : seen.contains (key x) = true
    · rw [if_pos hx] at h
      exact List.mem_cons_of_mem x (mem_dropDupBy key a seen xs h)
    · rw [if_neg hx] at h
      rcases List.mem_cons.mp h with rfl | h'
      · exact List.mem_cons_self a xs
      · exact List.mem_cons_of_mem x (mem_dropDupBy key a (key x :: seen) xs h')

theorem minFirst_none {α : Type} (le : α → α → Bool) (p : α → Bool) :
    ∀ l : List α, minFirst le p l = none → ∀ b ∈ l, p b = false
  | [], _, b, hb => absurd hb (List.not_mem_nil b)
  | x :: xs, h, b, hb => by
    simp only [minFirst] at h
    rcases hr : minFirst le p xs with _ | z
    · rw [hr] at h
      simp only [pickMin] at h
      cases hpx : p x
      · rcases List.mem_cons.mp hb with rfl | hb'
        · exact hpx
        · exact minFirst_none le p xs hr b hb'
      · rw [hpx] at h
        simp at h
    · rw [hr] at h
      simp only [pickMin] at h
      split at h <;> simp at h

theorem minFirst_mem {α : Type} (le : α → α → Bool) (p : α → Bool) :
    ∀ l : List α, ∀ a, minFirst le p l = some a → a ∈ l ∧ p a = true
  | [], a, h => by simp [minFirst] at h
  | x :: xs, a, h => by
    simp only [minFirst] at h
    rcases hr : minFirst le p xs with _ | z <;> rw [hr] at h <;> simp only [pickMin] at h
    · by_cases hpx : p x = true
      · rw [if_pos hpx] at h
        have ha : a = x := (Option.some.inj h).symm
        rw [ha]
        exact ⟨List.mem_cons_self x xs, hpx⟩
      · rw [if_neg hpx] at h
        exact absurd h (by simp)
    · by_cases hc : (p x && le x z) = true
      · rw [if_pos hc] at h
        have ha : a = x := (Option.some.inj h).symm
        rw [ha]
        exact ⟨List.mem_cons_self x xs, (Bool.and_eq_true _ _ |>.mp hc).1⟩
      · rw [if_neg hc] at h
        have ha : a = z := (Option.some.inj h).symm
        rw [ha]
        have hm := minFirst_mem le p xs z hr
        exact ⟨List.mem_cons_of_mem x hm.1, hm.2⟩

theorem minFirst_min {α : Type} (le : α → α → Bool) (p : α → Bool)
    (htr : ∀ a b c, le a b = true → le b c = true → le a c = true)
    (hto : ∀ a b, le a b = true ∨ le b a = true) :
    ∀ l : List α, ∀ a, minFirst le p l = some a →
      ∀ b ∈ l, p b = true → le a b = true
  | [], a, h => by simp [minFirst] at h
  | x :: xs, a, h => by
    have hrefl : ∀ c : α, le c c = true := fun c => (hto c c).elim id id
    intro b hb hpb
    simp only [minFirst] at h
    rcases hr : minFirst le p xs with _ | z <;> rw [hr] at h <;> simp only [pickMin] at h
    · by_cases hpx : p x = true
      · rw [if_pos hpx] at h
        have ha : a = x := (Option.some.inj h).symm
        rcases List.mem_cons.mp hb with hbx | hb'
        · rw [ha, hbx]
          exact hrefl x
        · exact absurd hpb (by rw [minFirst_none le p xs hr b hb']; simp)
      · rw [if_neg hpx] at h
        exact absurd h (by simp)
    · by_cases hc : (p x && le x z) = true
      · rw [if_pos hc] at h
        have ha : a = x := (Option.some.inj h).symm
        rcases List.mem_cons.mp hb with hbx | hb'
        · rw [ha, hbx]
          exact hrefl x
        · rw [ha]
          exact htr _ _ _ (Bool.and_eq_true _ _ |>.mp hc).2
            (minFirst_min le p htr hto xs z hr b hb' hpb)
      · rw [if_neg hc] at h
        have ha : a = z := (Option.some.inj h).symm
        rcases List.mem_cons.mp hb with hbx | hb'
        · rw [ha, hbx]
          rw [hbx] at hpb
          have hlxz : le x z = false := by
            cases hl : le x z
            · rfl
            · exact absurd (show (p x && le x z) = true by rw [hpb, hl]; rfl) hc
          rcases hto z x with h1 | h1
          · exact h1
          · exact absurd h1 (by simp [hlxz])
        · rw [ha]
          exact minFirst_min le p htr hto xs z hr b hb' hpb

theorem find_map {α β : Type} (f : α → β) (p : β → Bool) :
    ∀ l : List α, (l.map f).find? p = (l.find? (fun a => p (f a))).map f
  | [] => rfl
  | x :: xs => by
    cases hpx : p (f x) <;> simp [List.find?, hpx, find_map f p xs]

/-! ## The two deduplication orders are total preorders -/

theorem optRatLe_trans :
    ∀ a b c, optRatLe a b = true → optRatLe b c = true → optRatLe a c = true := by
  intro a b c h1 h2
  cases a <;> cases b <;> cases c <;>
    simp only [optRatLe, decide_eq_true_eq] at * <;> try trivial
  exact le_trans h1 h2

theorem optRatLe_total : ∀ a b, optRatLe a b = true ∨ optRatLe b a = true := by
  intro a b
  cases a <;> cases b <;> simp only [optRatLe, decide_eq_true_eq] <;> try tauto
  exact le_total _ _

theorem marketKeyLe_trans : ∀ a b c : MarketRow,
    marketKeyLe a b = true → marketKeyLe b c = true → marketKeyLe a c = true :=
  fun _ _ _ h1 h2 => optRatLe_trans _ _ _ h1 h2

theorem marketKeyLe_total : ∀ a b : MarketRow,
    marketKeyLe a b = true ∨ marketKeyLe b a = true :=
  fun _ _ => optRatLe_total _ _

theorem feedKeyLe_trans : ∀ a b c : CleanFeedRow,
    feedKeyLe a b = true → feedKeyLe b c = true → feedKeyLe a c = true := by
  intro a b c h1 h2
  simp only [feedKeyLe, decide_eq_true_eq] at *
  exact le_trans h1 h2

theorem feedKeyLe_total : ∀ a b : CleanFeedRow,
    feedKeyLe a b = true ∨ feedKeyLe b a = true := by
  intro a b
  simp only [feedKeyLe, decide_eq_true_eq]
  exact le_total _ _

/-! ## Characterizations of the two deduplication pipelines -/

/-- Looking an identifier up in `_load_prices`'s output yields exactly the
first normalized row of that identifier's group whose skipna-minimum of the
two prices is minimal (`none` ordering last). -/
theorem load_prices_find (rows : List PriceCsvRow) (e : String) :
    (load_prices rows).find? (fun r => r.ean == e)
      = minFirst marketKeyLe (fun r => r.ean == e) (rows.filterMap loadRow) := by
  have h1 := find_dropDupBy (fun r : MarketRow => r.ean) e []
    (sortB marketKeyLe (rows.filterMap loadRow)) rfl
  have h2 := find_sortB marketKeyLe (fun r : MarketRow => r.ean == e)
    marketKeyLe_trans marketKeyLe_total (rows.filterMap loadRow)
  exact h1.trans h2

/-- Looking an identifier up in `save_results`'s output yields exactly the
shipping-adjusted image of the first cleaned row of that identifier's group
whose `min(laagsteprijs, laagsteprijstweedehands)` — over the zero-coerced
prices — is minimal. -/
theorem save_results_find (rows : List FeedRow) (e : String) :
    (save_results rows).find? (fun r => r.ean == e)
      = (minFirst feedKeyLe (fun r => r.ean == e) (rows.filterMap feedCleanRow)).map
          shippingAdjust := by
  have h0 := find_map shippingAdjust (fun r : CleanFeedRow => r.ean == e)
    (dropDupBy (fun r => r.ean) [] (sortB feedKeyLe (rows.filterMap feedCleanRow)))
  have h1 := find_dropDupBy (fun r : CleanFeedRow => r.ean) e []
    (sortB feedKeyLe (rows.filterMap feedCleanRow)) rfl
  have h2 := find_sortB feedKeyLe (fun r : CleanFeedRow => r.ean == e)
    feedKeyLe_trans feedKeyLe_total (rows.filterMap feedCleanRow)
  exact h0.trans (congrArg (Option.map shippingAdjust) (h1.trans h2))

theorem countP_map_local {α β : Type} (f : α → β) (p : β → Bool) :
    ∀ l : List α, (l.map f).countP p = l.countP (fun a => p (f a))
  | [] => rfl
  | x :: xs => by
    simp [List.countP_cons, countP_map_local f p xs]

/-- After `_load_prices`, each identifier occurs at most once. -/
theorem load_prices_unique (rows : List PriceCsvRow) (e : String) :
    (load_prices rows).countP (fun r => r.ean == e) ≤ 1 :=
  (countP_dropDupBy (fun r : MarketRow => r.ean) e []
    (sortB marketKeyLe (rows.filterMap loadRow))).1

/-- After `save_results`, each identifier occurs at most once. -/
theorem save_results_unique (rows : List FeedRow) (e : String) :
    (save_results rows).countP (fun r => r.ean == e) ≤ 1 := by
  have h0 := countP_map_local shippingAdjust (fun r : CleanFeedRow => r.ean == e)
    (dropDupBy (fun r => r.ean) [] (sortB feedKeyLe (rows.filterMap feedCleanRow)))
  have h1 := (countP_dropDupBy (fun r : CleanFeedRow => r.ean) e []
    (sortB feedKeyLe (rows.filterMap feedCleanRow))).1
  exact le_trans (le_of_eq h0) h1

/-- Every row of `_load_prices`'s output is the normalization of an input
row. -/
theorem mem_load_prices (rows : List PriceCsvRow) (m : MarketRow)
    (h : m ∈ load_prices rows) : ∃ r ∈ rows, loadRow r = some m := by
  unfold load_prices at h
  have h1 := mem_dropDupBy (fun r : MarketRow => r.ean) m [] _ h
  have h2 := (mem_sortB marketKeyLe m _).mp h1
  exact List.mem_filterMap.mp h2

/-- Every row of `save_results`'s output is the shipping-adjusted image of
the cleaned form of an input row. -/
theorem mem_save_results (rows : List FeedRow) (c : CleanFeedRow)
    (h : c ∈ save_results rows) :
    ∃ b, (∃ r ∈ rows, feedCleanRow r = some b) ∧ c = shippingAdjust b := by
  unfold save_results at h
  rcases List.mem_map.mp h with ⟨b, hb, hcb⟩
  have h1 := mem_dropDupBy (fun r : CleanFeedRow => r.ean) b [] _ hb
  have h2 := (mem_sortB feedKeyLe b _).mp h1
  exact ⟨b, List.mem_filterMap.mp h2, hcb.symm⟩

/-! ## Field-level facts about the normalizers -/

theorem loadRow_fields (r : PriceCsvRow) (m : MarketRow) (h : loadRow r = some m) :
    clean_ean r.ean = some m.ean ∧
    m.laagsteprijs = (clean_price r.laagsteprijs).map (fun q => q / 100) ∧
    m.laagsteprijstweedehands
      = (clean_price r.laagsteprijstweedehands).map (fun q => q / 100) := by
  unfold loadRow at h
  cases he : clean_ean r.ean with
  | none => rw [he] at h; exact absurd h (by simp)
  | some e =>
    rw [he] at h
    have hm := Option.some.inj h
    rw [← hm]
    exact ⟨rfl, rfl, rfl⟩

theorem feedCleanRow_fields (r : FeedRow) (b : CleanFeedRow)
    (h : feedCleanRow r = some b) :
    b.ean = feed_clean_ean r.ean ∧ b.ean ≠ "" ∧
    b.laagsteprijs = feedPrice r.laagsteprijs ∧
    b.verzendkostennieuw = feedPrice r.verzendkostennieuw ∧
    b.laagsteprijstweedehands = feedPrice r.laagsteprijstweedehands ∧
    b.verzendkostentweedehands = feedPrice r.verzendkostentweedehands := by
  unfold feedCleanRow at h
  by_cases he : feed_clean_ean r.ean = ""
  · rw [if_pos he] at h
    exact absurd h (by simp)
  · rw [if_neg he] at h
    have hb := Option.some.inj h
    rw [← hb]
    exact ⟨rfl, he, rfl, rfl, rfl, rfl⟩

theorem filter_all_self {α : Type} (p : α → Bool) (l : List α) :
    (l.filter p).all p = true := by
  rw [List.all_eq_true]
  intro x hx
  exact (List.mem_filter.mp hx).2

theorem clean_ean_some (s e : String) (h : clean_ean s = some e) :
    e ≠ "" ∧ e.data.all Char.isDigit = true := by
  unfold clean_ean at h
  by_cases hd : ((pyStrip s).data.filter Char.isDigit).isEmpty = true
  · rw [if_pos hd] at h
    exact absurd h (by simp)
  · rw [if_neg hd] at h
    have he : e = ⟨(pyStrip s).data.filter Char.isDigit⟩ := (Option.some.inj h).symm
    constructor
    · rw [he]
      intro hcon
      have hnil : ((pyStrip s).data.filter Char.isDigit) = [] :=
        congrArg String.data hcon
      exact hd (by rw [hnil]; rfl)
    · rw [he]
      exact filter_all_self Char.isDigit (pyStrip s).data

theorem head_dropWhile {α : Type} (p : α → Bool) :
    ∀ l : List α, ∀ a, (l.dropWhile p).head? = some a → p a = false
  | [], a, h => by simp [List.dropWhile] at h
  | x :: xs, a, h => by
    rw [List.dropWhile_cons] at h
    by_cases hp : p x = true
    · rw [if_pos hp] at h
      exact head_dropWhile p xs a h
    · rw [if_neg hp] at h
      have hxa : x = a := by simpa using h
      rw [← hxa]
      exact Bool.of_not_eq_true hp

theorem feed_clean_ean_digits (s : String) :
    (feed_clean_ean s).data.all Char.isDigit = true ∧
    (feed_clean_ean s).data.head? ≠ some '0' := by
  constructor
  · rw [List.all_eq_true]
    intro x hx
    have hx' : x ∈ s.data.filter Char.isDigit :=
      List.Sublist.mem hx (List.dropWhile_sublist _)
    exact (List.mem_filter.mp hx').2
  · intro hcon
    have h0 := head_dropWhile (fun c : Char => c = '0') (s.data.filter Char.isDigit)
      '0' hcon
    simp at h0

/-! ## Parsed prices are never negative on the comparison side -/

theorem parseDecimal_nonneg (l : List Char) (q : ℚ) (h : parseDecimal l = some q) :
    0 ≤ q := by
  unfold parseDecimal at h
  split at h
  · exact absurd h (by simp)
  · split at h
    · split at h
      · exact absurd h (by simp)
      · rw [← Option.some.inj h]
        positivity
    · split at h
      · exact absurd h (by simp)
      · split at h
        · exact absurd h (by simp)
        · rw [← Option.some.inj h]
          positivity

theorem parseSigned_nonneg (l : List Char)
    (hl : ∀ c ∈ l, (c.isDigit || c = '.') = true) :
    ∀ q, parseSigned l = some q → 0 ≤ q := by
  intro q h
  cases l with
  | nil => simp [parseSigned] at h
  | cons c rest =>
    have hc := hl c (List.mem_cons_self c rest)
    by_cases hminus : c = '-'
    · rw [hminus] at hc
      simp [Char.isDigit] at hc
    · by_cases hplus : c = '+'
      · rw [hplus] at hc
        simp [Char.isDigit] at hc
      · simp only [parseSigned, if_neg hminus, if_neg hplus] at h
        exact parseDecimal_nonneg _ q h

theorem mem_stripChars (w : Char → Bool) (l : List Char) (c : Char)
    (hc : c ∈ ((l.dropWhile w).reverse.dropWhile w).reverse) : c ∈ l := by
  rw [List.mem_reverse] at hc
  have h2 : c ∈ (l.dropWhile w).reverse :=
    List.Sublist.mem hc (List.dropWhile_sublist _)
  rw [List.mem_reverse] at h2
  exact List.Sublist.mem h2 (List.dropWhile_sublist _)

theorem mem_rejoinFirstDot (l : List Char) (c : Char) (hc : c ∈ rejoinFirstDot l) :
    c = '.' ∨ c ∈ l := by
  unfold rejoinFirstDot at hc
  by_cases hdot : l.contains '.' = true
  · rw [if_pos hdot] at hc
    rcases List.mem_append.mp hc with h1 | h1
    · exact Or.inr (List.Sublist.mem h1 (List.takeWhile_sublist _))
    · rcases List.mem_cons.mp h1 with h2 | h2
      · exact Or.inl h2
      · exact Or.inr (List.Sublist.mem (List.Sublist.mem h2 (List.tail_sublist _))
          (List.dropWhile_sublist _))
  · rw [if_neg hdot] at hc
    exact Or.inr hc

/-- A price cleaned by compare.py `_clean_price` is never negative: the
character filter discards any minus sign before parsing. -/
theorem clean_price_nonneg (s : String) (q : ℚ) (h : clean_price s = some q) :
    0 ≤ q := by
  unfold clean_price pyFloat at h
  refine parseSigned_nonneg _ ?_ q h
  intro c hc
  have h1 : c ∈ rejoinFirstDot ((s.data.map commaToDot).filter
      (fun c => c.isDigit || c = '.')) := mem_stripChars Char.isWhitespace _ c hc
  rcases mem_rejoinFirstDot _ c h1 with h2 | h2
  · rw [h2]
    rfl
  · exact (List.mem_filter.mp h2).2

/-! ## The inner merge of `_compare_prices` -/

/-- The catalog items surviving `_compare_prices` are exactly those whose
identifier finds a market row: the merge is an inner join with no
keep-unmatched mode. -/
theorem compare_prices_catalog (mag : List CatalogItem) (prz : List MarketRow) :
    (compare_prices mag prz).map (fun r => r.catalog)
      = mag.filter (fun c => (prz.find? (fun m => m.ean == c.ean)).isSome) := by
  induction mag with
  | nil => rfl
  | cons c cs ih =>
    simp only [compare_prices, List.filterMap_cons] at *
    cases hf : prz.find? (fun m => m.ean == c.ean) with
    | none => simp [hf, List.filter_cons, ih]
    | some m => simp [hf, List.filter_cons, ih, mkRecon]

/-- Every output row of `_compare_prices` is built by `mkRecon` from a
catalog item and the market row its identifier finds. -/
theorem mem_compare_prices (mag : List CatalogItem) (prz : List MarketRow)
    (r : ReconRow) (h : r ∈ compare_prices mag prz) :
    ∃ c m, c ∈ mag ∧ prz.find? (fun mm => mm.ean == c.ean) = some m ∧
      r = mkRecon c m := by
  unfold compare_prices at h
  rcases List.mem_filterMap.mp h with ⟨c, hc, hmap⟩
  cases hf : prz.find? (fun mm => mm.ean == c.ean) with
  | none => rw [hf] at hmap; exact absurd hmap (by simp)
  | some m =>
    rw [hf] at hmap
    exact ⟨c, m, hc, hf, (Option.some.inj hmap).symm⟩

/-! ## Specification-side definitions used to compare code with spec -/

/-- Modelled from the spec (§4.3): the deduplication key the spec
prescribes for a raw feed row — each row's minimum of `price_new` and
`price_used` with absent prices excluded from the minimum, absent exactly
when both are absent. -/
def feedSpecKey (r : FeedRow) : Option ℚ :=
  skipnaMin (feed_clean_price r.laagsteprijs) (feed_clean_price r.laagsteprijstweedehands)

/-- Modelled from the spec (§4.3): the spec's key ordering — a row with
both prices absent sorts last. -/
def feedSpecLe (a b : FeedRow) : Bool :=
  optRatLe (feedSpecKey a) (feedSpecKey b)

/-- Modelled from the spec (§4.3): the representative the spec's tie-break
rule selects for identifier `e` among the raw feed rows — the first row of
the group whose skipna-minimum of parsed prices is smallest, a both-absent
row sorting last, ties broken by input order. -/
def spec_dedup_select (rows : List FeedRow) (e : String) : Option FeedRow :=
  minFirst feedSpecLe (fun r => feed_clean_ean r.ean == e) rows

/-- Modelled from the spec (§3, ReconciledRow): `price_difference` is
defined iff both prices are present, and then equals
`round(catalog_price - market_price, 2)`. -/
def spec_price_difference (cp mp : Option ℚ) : Option ℚ :=
  match cp, mp with
  | some c, some m => some (round2 (c - m))
  | _, _ => none

/-- Decidable version of "this optional price is absent or nonnegative". -/
def optNonneg (x : Option ℚ) : Bool :=
  match x with
  | none => true
  | some q => decide (0 ≤ q)

theorem optNonneg_map_div (x : Option ℚ) (hx : ∀ q, x = some q → 0 ≤ q) :
    optNonneg (x.map (fun q => q / 100)) = true := by
  cases hq : x with
  | none => rfl
  | some q =>
    show optNonneg (some (q / 100)) = true
    simp only [optNonneg, decide_eq_true_eq]
    exact div_nonneg (hx q hq) (by norm_num)

/-! ## Claims

The Batteries rational operations are `@[irreducible]`, which blocks
`decide`'s evaluation of concrete pipeline runs; making them semireducible
locally restores plain kernel computation (no extra axioms involved). -/

attribute [local semireducible] Rat.mul Rat.add Rat.sub Rat.inv Rat.ofScientific

/-! ## Claim C1 -/

/-- Fixture: a feed row whose two prices are both unparseable (absent per
the spec), zero shipping. -/
def c1row1 : FeedRow :=
  { titel := "A", ean := "123", laagsteprijs := "abc", verzendkostennieuw := "0",
    laagsteprijstweedehands := "abc", verzendkostentweedehands := "0", link := "" }

/-- Fixture: a feed row of the same identifier with both prices present. -/
def c1row2 : FeedRow :=
  { titel := "B", ean := "123", laagsteprijs := "5,00", verzendkostennieuw := "0",
    laagsteprijstweedehands := "6,00", verzendkostentweedehands := "0", link := "" }

/-- C1 counterexample: in the feed-ingestion path, a group of two rows
sharing identifier `123` — the first with both prices unparseable (absent),
the second with present prices 5.00 and 6.00 — is represented by the FIRST
row (title `A`), because `fillna(0.0)` has turned its absent prices into
`0.0`, which sorts first.  The spec's selector keeps the second row
(title `B`), since a both-absent row must sort last. -/
theorem C1_counterexample :
    (save_results [c1row1, c1row2]).map (fun r => r.titel) = ["A"] ∧
    spec_dedup_select [c1row1, c1row2] "123" = some c1row2 ∧
    c1row2.titel = "B" ∧
    feedSpecKey c1row1 = none ∧ feedSpecKey c1row2 = some 5 := by
  decide

/-- C1 (amended): after deduplication each normalized identifier has at most
one row, and the representative is characterized per path.  In
`_load_prices`, looking up an identifier returns exactly the first
normalized row of the group minimizing the skipna-minimum of the two prices
(a both-absent row ordering last; ties: first input row wins).  In
`save_results`, absent prices were already coerced to `0.0`, so the lookup
returns the shipping-adjusted image of the first cleaned row minimizing
`min(price_new, price_used)` over those zero-coerced values — an all-absent
row gets key `0.0` and sorts first, not last. -/
theorem C1_dedup_selects_min :
    (∀ (rows : List PriceCsvRow) (e : String),
        (load_prices rows).find? (fun r => r.ean == e)
          = minFirst marketKeyLe (fun r => r.ean == e) (rows.filterMap loadRow)) ∧
    (∀ (rows : List FeedRow) (e : String),
        (save_results rows).find? (fun r => r.ean == e)
          = (minFirst feedKeyLe (fun r => r.ean == e)
              (rows.filterMap feedCleanRow)).map shippingAdjust) ∧
    (∀ (rows : List PriceCsvRow) (e : String),
        (load_prices rows).countP (fun r => r.ean == e) ≤ 1) ∧
    (∀ (rows : List FeedRow) (e : String),
        (save_results rows).countP (fun r => r.ean == e) ≤ 1) :=
  ⟨load_prices_find, save_results_find, load_prices_unique, save_results_unique⟩

/-! ## Claim C2 -/

/-- C2 counterexample: the feed-ingestion path replaces the unparseable
price `"abc"` with the default numeric value `0.0` (via `fillna`), which
then flows through deduplication and shipping adjustment into the saved
market table. -/
theorem C2_counterexample :
    feed_clean_price "abc" = none ∧
    (save_results
        [{ titel := "T", ean := "1", laagsteprijs := "abc", verzendkostennieuw := "0",
           laagsteprijstweedehands := "abc", verzendkostentweedehands := "0",
           link := "" }]).map (fun r => r.laagsteprijs) = [0] := by
  decide

/-- C2 (amended): on the comparison side an unparseable price is absent and
absence propagates — through loading, and through the difference column,
which is absent whenever either operand is absent — but the feed-ingestion
path replaces every unparseable price with the default numeric value `0.0`
before deduplication. -/
theorem C2_absence_propagation :
    (∀ s, feed_clean_price s = none → feedPrice s = 0) ∧
    (∀ r m, loadRow r = some m → clean_price r.laagsteprijs = none →
        m.laagsteprijs = none) ∧
    (∀ q, priceDifference none q = none) ∧
    (∀ q, priceDifference q none = none) ∧
    (∀ c mr, c.price = none → (mkRecon c mr).verschil = none) := by
  refine ⟨?_, ?_, ?_, ?_, ?_⟩
  · intro s h
    simp [feedPrice, h]
  · intro r m hm hcp
    rcases loadRow_fields r m hm with ⟨-, h2, -⟩
    rw [h2, hcp]
    rfl
  · intro q
    cases q <;> rfl
  · intro q
    cases q <;> rfl
  · intro c mr h
    show priceDifference c.price (selectMarketPrice c.ctype mr) = none
    rw [h]
    cases selectMarketPrice c.ctype mr <;> rfl

/-- Fixture: a market CSV row with an unparseable new price. -/
def c2csvrow : PriceCsvRow :=
  { ean := "9", laagsteprijs := "abc", laagsteprijstweedehands := "", link := "L" }

/-- Fixture: its normalized image — both prices absent. -/
def c2mrow : MarketRow :=
  { ean := "9", laagsteprijs := none, laagsteprijstweedehands := none, link := "L" }

/-- Fixture: a catalog item whose own price failed to parse. -/
def c2item : CatalogItem :=
  { sku := "12N", ean := "1", ctype := 'N', title := "t", qty := "1", price := none }

/-- Fixture: a market row matching `c2item`. -/
def c2mkt : MarketRow :=
  { ean := "1", laagsteprijs := some 5, laagsteprijstweedehands := none, link := "" }

/-- C2 witness: the amended claim evaluated at concrete inputs. -/
theorem C2_witness :
    loadRow c2csvrow = some c2mrow ∧ clean_price "abc" = none ∧
    c2mrow.laagsteprijs = none ∧
    feedPrice "xyz" = 0 ∧
    (mkRecon c2item c2mkt).verschil = none :=
  ⟨by decide, by decide,
   C2_absence_propagation.2.1 c2csvrow c2mrow (by decide) (by decide),
   C2_absence_propagation.1 "xyz" (by decide),
   C2_absence_propagation.2.2.2.2 c2item c2mkt (by decide)⟩

/-! ## Claim C3 -/

/-- C3 counterexample: the catalog-side price normalizer `_clean_price`
does NOT map `"1.234,56"` to `1234.56` — after the comma is turned into a
dot the string still holds two dots (the `split('.', 1)` re-assembly is a
no-op), so `to_numeric` coerces it to absent. -/
theorem C3_counterexample :
    clean_price "1.234,56" = none ∧
    clean_price "1.234,56" ≠ some (123456 / 100 : ℚ) := by
  decide

/-- C3 (amended): the feed-side normalizer maps `"1.234,56"` to `1234.56`
(dots removed as grouping, comma as decimal separator), while the
catalog/comparison-side normalizer yields absent on `"1.234,56"`; both map
`"19,99"` to `19.99`. -/
theorem C3_scenario_d :
    feed_clean_price "1.234,56" = some (123456 / 100 : ℚ) ∧
    clean_price "1.234,56" = none ∧
    clean_price "19,99" = some (1999 / 100 : ℚ) ∧
    feed_clean_price "19,99" = some (1999 / 100 : ℚ) := by
  decide

/-! ## Claim C4 -/

/-- C4 counterexample: a catalog item with identifier `99999` and no
matching market row yields NO output row at all — it is dropped by the
inner merge; no keep-all mode exists that would retain it with an absent
market price. -/
theorem C4_counterexample :
    (parse_magento [{ sku := "99999N", title := "T", qty := "1", price := "24,99" }]).length
      = 1 ∧
    compare_prices
      (parse_magento [{ sku := "99999N", title := "T", qty := "1", price := "24,99" }])
      [] = [] := by
  decide

/-- C4 (amended): the join is always an inner join — there is no
caller-selected mode.  The catalog items appearing in the output are
exactly those whose identifier finds a market row; unmatched catalog items
appear in no output, so neither report can contain them. -/
theorem C4_inner_join_only (mag : List CatalogItem) (prz : List MarketRow) :
    (compare_prices mag prz).map (fun r => r.catalog)
      = mag.filter (fun c => (prz.find? (fun m => m.ean == c.ean)).isSome) :=
  compare_prices_catalog mag prz

/-! ## Claim C5 -/

/-- C5 counterexample: the comparison-side identifier normalizer
`_clean_ean` does NOT strip leading zeros: `"0123"` normalizes to
`"0123"`, not `"123"`. -/
theorem C5_counterexample :
    clean_ean "0123" = some "0123" ∧ ("0123" : String) ≠ "123" := by
  decide

/-- C5 (amended): both normalizers remove every non-digit character, map an
empty result to absent, and absent rows are excluded from the tables — but
only the feed-side normalizer strips leading zeros; `_clean_ean` keeps
them.  Every identifier surviving either pipeline is a non-empty digit
string, and on the feed side additionally has no leading zero. -/
theorem C5_identifier_normalizers :
    (∀ s e, clean_ean s = some e → e ≠ "" ∧ e.data.all Char.isDigit = true) ∧
    (∀ (rows : List PriceCsvRow) m, m ∈ load_prices rows →
        m.ean ≠ "" ∧ m.ean.data.all Char.isDigit = true) ∧
    (∀ (rows : List FeedRow) c, c ∈ save_results rows →
        c.ean ≠ "" ∧ c.ean.data.all Char.isDigit = true ∧
        c.ean.data.head? ≠ some '0') := by
  refine ⟨clean_ean_some, ?_, ?_⟩
  · intro rows m hm
    rcases mem_load_prices rows m hm with ⟨r, -, hr⟩
    rcases loadRow_fields r m hr with ⟨he, -, -⟩
    exact clean_ean_some _ _ he
  · intro rows c hc
    rcases mem_save_results rows c hc with ⟨b, ⟨r, -, hb⟩, hcb⟩
    rcases feedCleanRow_fields r b hb with ⟨hbe, hbne, -, -, -, -⟩
    have h1 := feed_clean_ean_digits r.ean
    have hce : c.ean = feed_clean_ean r.ean := by
      rw [hcb]
      exact hbe
    refine ⟨?_, ?_, ?_⟩
    · rw [hce, ← hbe]
      exact hbne
    · rw [hce]
      exact h1.1
    · rw [hce]
      exact h1.2

/-- Fixture: a market CSV row whose raw identifier has a leading zero. -/
def c5csvrow : PriceCsvRow :=
  { ean := "07", laagsteprijs := "1,00", laagsteprijstweedehands := "", link := "" }

/-- Fixture: its normalized image — the zero survives on this side. -/
def c5mrow : MarketRow :=
  { ean := "07", laagsteprijs := some (1 / 100), laagsteprijstweedehands := none,
    link := "" }

/-- Fixture: a feed row whose raw identifier has a leading zero. -/
def c5feedrow : FeedRow :=
  { titel := "t", ean := "0123", laagsteprijs := "2,00", verzendkostennieuw := "0",
    laagsteprijstweedehands := "", verzendkostentweedehands := "0", link := "" }

/-- Fixture: its saved image — the zero is stripped on the feed side. -/
def c5feedclean : CleanFeedRow :=
  { titel := "t", ean := "123", laagsteprijs := 2, verzendkostennieuw := 0,
    laagsteprijstweedehands := 0, verzendkostentweedehands := 0, link := "" }

/-- C5 witness: the amended claim evaluated at concrete inputs. -/
theorem C5_witness :
    clean_ean " a1b2 " = some "12" ∧ ("12" : String) ≠ "" ∧
    c5mrow ∈ load_prices [c5csvrow] ∧ c5mrow.ean ≠ "" ∧
    c5feedclean ∈ save_results [c5feedrow] ∧
    c5feedclean.ean.data.head? ≠ some '0' :=
  ⟨by decide,
   (C5_identifier_normalizers.1 " a1b2 " "12" (by decide)).1,
   by decide,
   (C5_identifier_normalizers.2.1 [c5csvrow] c5mrow (by decide)).1,
   by decide,
   (C5_identifier_normalizers.2.2 [c5feedrow] c5feedclean (by decide)).2.2⟩

/-! ## Claim C6 -/

/-- Fixture: a catalog row whose SKU ends in the unrecognized type `X`. -/
def c6mg : MagentoRow :=
  { sku := "77700X", title := "T", qty := "1", price := "10,00" }

/-- Fixture: a market row with the matching identifier. -/
def c6mkt : MarketRow :=
  { ean := "77700", laagsteprijs := some 5, laagsteprijstweedehands := some 4,
    link := "L" }

/-- C6 counterexample: the catalog row with `sku = "77700X"` is NOT
rejected — it parses successfully and participates in the join (one output
row), with its market price absent.  No diagnostic count of such rows
exists anywhere in the code. -/
theorem C6_counterexample :
    (parse_magento [c6mg]).length = 1 ∧
    (compare_prices (parse_magento [c6mg]) [c6mkt]).map (fun r => r.cheapest)
      = [none] := by
  decide

/-- C6 (amended): a catalog row whose SKU's trailing character is neither
`N` nor `G` is kept, not rejected: whenever the type character is
unrecognized the selected market price is `None`, so the row flows through
the join with an absent market price (and is therefore marked cheapest);
the batch continues, but nothing counts the row as a defect. -/
theorem C6_unknown_type_kept :
    (∀ (t : Char) (m : MarketRow), t ≠ 'N' → t ≠ 'G' → selectMarketPrice t m = none) ∧
    (parse_magento [c6mg]).map (fun c => c.ctype) = ['X'] ∧
    (compare_prices (parse_magento [c6mg]) [c6mkt]).map
        (fun r => (r.cheapest, is_lowest r.catalog.price r.cheapest))
      = [(none, "Y")] := by
  refine ⟨?_, by decide, by decide⟩
  intro t m h1 h2
  simp [selectMarketPrice, h1, h2]

/-- C6 witness: the general part of the amended claim evaluated at the
unrecognized type character `X`. -/
theorem C6_witness :
    ('X' : Char) ≠ 'N' ∧ ('X' : Char) ≠ 'G' ∧ selectMarketPrice 'X' c6mkt = none :=
  ⟨by decide, by decide, C6_unknown_type_kept.1 'X' c6mkt (by decide) (by decide)⟩

/-! ## Claim C7 -/

/-- Fixture: a market CSV row carrying the euro amount `19,99`. -/
def c7row : PriceCsvRow :=
  { ean := "5", laagsteprijs := "19,99", laagsteprijstweedehands := "", link := "" }

/-- Fixture: its loaded image — the parsed price has been divided by 100. -/
def c7mrow : MarketRow :=
  { ean := "5", laagsteprijs := some (1999 / 10000), laagsteprijstweedehands := none,
    link := "" }

/-- C7 counterexample: `_load_prices` divides the parsed price `19.99` by
100 with no configuration flag anywhere — the loaded value is `0.1999`, not
`19.99`, so the scaling is not opt-in. -/
theorem C7_counterexample :
    (load_prices [c7row]).map (fun m => m.laagsteprijs) = [some (1999 / 10000 : ℚ)] ∧
    (1999 / 10000 : ℚ) ≠ (1999 / 100 : ℚ) := by
  decide

/-- C7 (amended): minor-unit scaling is unconditional on the comparison
side — every parsed market price is divided by 100 by `_load_prices`, with
no per-source flag — while the feed-ingestion path stores parsed prices
unscaled. -/
theorem C7_unconditional_scaling :
    (∀ r m q, loadRow r = some m → clean_price r.laagsteprijs = some q →
        m.laagsteprijs = some (q / 100)) ∧
    (∀ r m q, loadRow r = some m →
        clean_price r.laagsteprijstweedehands = some q →
        m.laagsteprijstweedehands = some (q / 100)) ∧
    (∀ s q, feed_clean_price s = some q → feedPrice s = q) := by
  refine ⟨?_, ?_, ?_⟩
  · intro r m q hm hq
    rcases loadRow_fields r m hm with ⟨-, h2, -⟩
    rw [h2, hq]
    rfl
  · intro r m q hm hq
    rcases loadRow_fields r m hm with ⟨-, -, h3⟩
    rw [h3, hq]
    rfl
  · intro s q h
    simp [feedPrice, h]

/-- C7 witness: the amended claim evaluated at concrete inputs. -/
theorem C7_witness :
    loadRow c7row = some c7mrow ∧ clean_price "19,99" = some (1999 / 100 : ℚ) ∧
    c7mrow.laagsteprijs = some ((1999 / 100 : ℚ) / 100) ∧
    feed_clean_price "19,99" = some (1999 / 100 : ℚ) ∧
    feedPrice "19,99" = (1999 / 100 : ℚ) :=
  ⟨by decide, by decide,
   C7_unconditional_scaling.1 c7row c7mrow (1999 / 100) (by decide) (by decide),
   by decide,
   C7_unconditional_scaling.2.2 "19,99" (1999 / 100) (by decide)⟩

/-! ## Claim C8 -/

/-- C8: for every row produced by `_compare_prices`, the price difference
equals the spec's `price_difference` — present iff both the catalog price
and the selected market price are present, and then equal to
`round(catalog_price - market_price, 2)`. -/
theorem C8_price_difference (mag : List CatalogItem) (prz : List MarketRow)
    (r : ReconRow) (h : r ∈ compare_prices mag prz) :
    r.verschil = spec_price_difference r.catalog.price r.cheapest ∧
    (r.verschil ≠ none ↔ (r.catalog.price ≠ none ∧ r.cheapest ≠ none)) := by
  rcases mem_compare_prices mag prz r h with ⟨c, m, -, -, hr⟩
  rw [hr]
  cases hcp : c.price <;> cases hmp : selectMarketPrice c.ctype m <;>
    simp [mkRecon, priceDifference, spec_price_difference, hcp, hmp]

/-- Fixture: a catalog item priced 24.99 with condition type New. -/
def c8item : CatalogItem :=
  { sku := "10N", ean := "1", ctype := 'N', title := "t", qty := "1",
    price := some (2499 / 100) }

/-- Fixture: its matching market row with new price 19.99. -/
def c8mkt : MarketRow :=
  { ean := "1", laagsteprijs := some (1999 / 100), laagsteprijstweedehands := none,
    link := "" }

/-- Fixture: the merged comparison row for `c8item` and `c8mkt`. -/
def c8row : ReconRow := mkRecon c8item c8mkt

/-- C8 witness: the claim evaluated at a concrete merged row. -/
theorem C8_witness :
    c8row ∈ compare_prices [c8item] [c8mkt] ∧
    c8row.verschil = spec_price_difference c8row.catalog.price c8row.cheapest :=
  ⟨by decide, (C8_price_difference [c8item] [c8mkt] c8row (by decide)).1⟩

/-! ## Claim C9 -/

/-- Fixture: a feed row whose prices fail to parse but whose new-unit
shipping cost is `2,50`. -/
def c9feedrow : FeedRow :=
  { titel := "T", ean := "7", laagsteprijs := "abc", verzendkostennieuw := "2,50",
    laagsteprijstweedehands := "abc", verzendkostentweedehands := "0", link := "" }

/-- C9 counterexample: the shipping adjustment of `save_results` produces a
NEGATIVE price: the unparseable price became `0.0`, and `0.0 - 2.50` is
stored as `-2.50` in the market table. -/
theorem C9_counterexample :
    (save_results [c9feedrow]).map (fun r => r.laagsteprijs) = [-(5 / 2 : ℚ)] ∧
    (-(5 / 2 : ℚ) < 0) := by
  decide

/-- C9 (amended): every price in the normalized market table handed to
matching (`_load_prices`'s output) is absent or nonnegative — the
comparison-side cleaner strips any sign character before parsing and the
division by 100 preserves sign — but the feed-side shipping adjustment can
produce negative prices in the saved market CSV. -/
theorem C9_matching_prices_nonneg (rows : List PriceCsvRow) (m : MarketRow)
    (h : m ∈ load_prices rows) :
    optNonneg m.laagsteprijs = true ∧ optNonneg m.laagsteprijstweedehands = true := by
  rcases mem_load_prices rows m h with ⟨r, -, hr⟩
  rcases loadRow_fields r m hr with ⟨-, h2, h3⟩
  constructor
  · rw [h2]
    exact optNonneg_map_div _ (fun q hq => clean_price_nonneg _ q hq)
  · rw [h3]
    exact optNonneg_map_div _ (fun q hq => clean_price_nonneg _ q hq)

/-- Fixture: a market CSV row with one parseable and one garbage price. -/
def c9csvrow : PriceCsvRow :=
  { ean := "88", laagsteprijs := "3,00", laagsteprijstweedehands := "x", link := "" }

/-- Fixture: its loaded image. -/
def c9mrow : MarketRow :=
  { ean := "88", laagsteprijs := some (3 / 100), laagsteprijstweedehands := none,
    link := "" }

/-- C9 witness: the amended claim evaluated at a concrete loaded row. -/
theorem C9_witness :
    c9mrow ∈ load_prices [c9csvrow] ∧
    optNonneg c9mrow.laagsteprijs = true ∧
    optNonneg c9mrow.laagsteprijstweedehands = true :=
  ⟨by decide,
   (C9_matching_prices_nonneg [c9csvrow] c9mrow (by decide)).1,
   (C9_matching_prices_nonneg [c9csvrow] c9mrow (by decide)).2⟩

/-! ## Claim C10 -/

/-- C10: the audit export row holds exactly the thirteen cells
link, identifier, title, quantity, catalog price, market price, difference,
is-cheapest flag, reviewer, approved, date, note, sku — in that order,
under the export column names — with the four annotation cells empty in
every row, and the flag is `Y` exactly when the market price is absent or
the catalog price is present and at most the market price. -/
theorem C10_audit_export (r : ReconRow) :
    exportRow r
      = [Cell.str r.market.link, Cell.str r.catalog.ean, Cell.str r.catalog.title,
         Cell.int (qtyInt r.catalog.qty), Cell.num r.catalog.price, Cell.num r.cheapest,
         Cell.num r.verschil, Cell.str (is_lowest r.catalog.price r.cheapest),
         Cell.str "", Cell.str "", Cell.str "", Cell.str "", Cell.str r.catalog.sku] ∧
    export_columns
      = ["BGLink", "BGEAN", "Titel", "GSVoorraad", "GSPrijs", "Goedkoopste Prijs",
         "Verschil", "Laagste?", "Gecheckt door", "Is OK?", "Datum", "Opmerking",
         "GST EAN"] ∧
    (is_lowest r.catalog.price r.cheapest = "Y" ↔
      (r.cheapest = none ∨
        ∃ c m, r.catalog.price = some c ∧ r.cheapest = some m ∧ c ≤ m)) := by
  refine ⟨rfl, rfl, ?_⟩
  cases hmp : r.cheapest with
  | none => simp [is_lowest]
  | some m =>
    cases hcp : r.catalog.price with
    | none =>
      simp only [is_lowest]
      constructor
      · intro hcon
        exact absurd hcon (by decide)
      · rintro (hcon | ⟨c, m2, hc, -, -⟩)
        · exact absurd hcon (by simp)
        · exact absurd hc (by simp)
    | some c =>
      simp only [is_lowest]
      by_cases hle : c ≤ m
      · rw [if_pos hle]
        exact ⟨fun _ => Or.inr ⟨c, m, rfl, rfl, hle⟩, fun _ => rfl⟩
      · rw [if_neg hle]
        constructor
        · intro hcon
          exact absurd hcon (by decide)
        · rintro (hcon | ⟨c2, m2, hc2, hm2, hle2⟩)
          · exact absurd hcon (by simp)
          · exact absurd
              (show c ≤ m by
                rw [Option.some.inj hc2, Option.some.inj hm2]
                exact hle2) hle

end SV
